import Mathlib

/-!
ytwrk: result pipeline uploader and page parsers.

A verification development over a shallow embedding of

* `worker/batchwrite.go` (`batchUploader`): a step machine over the goroutine's
  control points and the channels it touches;
* `browseajax/parse.go` (`ParsePage`) and `apijson/parsechannel.go`
  (`ParseChannelVideoURLs`): functions over a model of `fastjson.Value`;
* `apiclassic/parsevideo.go` (`parseVideoInfo.parseMetas`, `parse`): state
  passing over `data.Video`.
-/

/-- A Go `error` value, identified by the text `err.Error()` returns. -/
structure GoError where
  msg : String
deriving DecidableEq, Repr

namespace data

/-- The fields of `data.Video` that the source files read or assign. -/
structure Video where
  ID : String := ""
  Title : String := ""
  Tags : List String := []
  URL : String := ""
  Thumbnail : String := ""
  UploadDate : Int := 0
  Genre : String := ""
  UploaderID : String := ""
  Duration : Nat := 0
  FamilyFriendly : Bool := false
  Views : Nat := 0
deriving DecidableEq, Repr

/-- One element of a batch: `vid.Video.ID` is read from it. -/
structure Crawl where
  Video : Video
deriving DecidableEq, Repr

end data

namespace worker

open data

/-- A batch as received from `c.resultBatches`. -/
abbrev Batch := List Crawl

/-- The effects of `batchUploader` that other components can observe. -/
inductive Action where
  /-- The receive `batch := <-c.resultBatches` -/
  | recv (batch : Batch)
  /-- The send `c.resultIDs <- vid.Video.ID` -/
  | sendID (id : String)
  /-- The call `err := store.SubmitCrawls(batch)`, with the value the store returned -/
  | submit (batch : Batch) (err : Option GoError)
  /-- The call `log.Errorf(...)`, with the formatted line -/
  | logErr (line : String)
  /-- The send `c.errors <- err` -/
  | sendErr (err : GoError)
deriving DecidableEq, Repr

/-- Control points of `batchUploader`. -/
inductive Pc where
  /-- blocked in the `select` at the head of the `for` -/
  | select
  /-- in `for _, vid := range batch`, about to send the ID of `batch[i]` -/
  | sendIDs (batch : Batch) (i : Nat)
  /-- about to call `store.SubmitCrawls(batch)` -/
  | submit (batch : Batch)
  /-- inside `if err != nil`, logged, about to do `c.errors <- err` -/
  | sendErr (batch : Batch) (err : GoError)
  /-- the function has returned -/
  | returned
deriving DecidableEq, Repr

/-- The goroutine together with the part of `workerContext` it uses.
`idsRoom` and `errRoom` count the sends the channel accepts right now (free
buffer slots plus receivers waiting); a send with no room blocks. -/
structure State where
  pc : Pc := Pc.select
  /-- The variable `timeout` is non-nil -/
  timeout : Bool := false
  /-- The channel `c.ctxt.Done()` is closed -/
  done : Bool := false
  /-- batches waiting in `c.resultBatches`, oldest first -/
  resultBatches : List Batch := []
  idsRoom : Nat := 0
  errRoom : Nat := 0
  trace : List Action := []
deriving DecidableEq, Repr

/-- What can happen next: a case of the `select` being chosen, a blocking
operation of the goroutine completing, or the environment acting on a
channel. -/
inductive Event where
  /-- The case `<-c.ctxt.Done()` is chosen -/
  | selectDone
  /-- The case `batch := <-c.resultBatches` is chosen -/
  | selectBatch
  /-- The case `<-timeout` is chosen -/
  | selectTimeout
  /-- the pending `c.resultIDs <- vid.Video.ID` completes -/
  | sendID
  /-- The call `store.SubmitCrawls(batch)` returns `err` -/
  | storeReturns (err : Option GoError)
  /-- the pending `c.errors <- err` completes -/
  | sendErr
  /-- the context is cancelled (idempotent) -/
  | cancel
  /-- a producer hands a batch to `c.resultBatches` -/
  | handoff (batch : Batch)
  /-- a consumer makes room on `c.resultIDs` -/
  | takeID
  /-- a consumer makes room on `c.errors` -/
  | takeErr
deriving DecidableEq, Repr

/-- Events performed by the goroutine itself. -/
def Event.isUploader : Event → Bool
  | .selectDone | .selectBatch | .selectTimeout => true
  | .sendID | .storeReturns _ | .sendErr => true
  | .cancel | .handoff _ | .takeID | .takeErr => false

/-- Head of the `range` loop at index `i`: the next ID send, or, when the
batch is exhausted, the statement after the loop. -/
def rangeHead (batch : Batch) (i : Nat) : Pc :=
  if i < batch.length then Pc.sendIDs batch i else Pc.submit batch

/-- The line `log.Errorf("Uploading crawl of %d videos failed: %s", ...)` writes. -/
def errorLine (batch : Batch) (err : GoError) : String :=
  "Uploading crawl of " ++ toString batch.length ++ " videos failed: " ++ err.msg

/-- One step of `batchUploader` (or of its environment) on the event given;
`none` when the event is not enabled in `s`: a `select` case that is not
ready, a send on a channel without room (the goroutine stays blocked), or an
event that does not belong to the control point.

* `selectDone`: `timeout = time.After(1 * time.Second)` and `return`;
* `selectBatch`: the batch is taken and the `range` loop entered;
* `selectTimeout`: `return`, ready only if `timeout` is non-nil;
* `sendID`: `c.resultIDs <- vid.Video.ID` for the record at the loop index;
* `storeReturns err`: `err := store.SubmitCrawls(batch)`; when `err != nil`
  the line is logged and the error send is next, else back to the `select`;
* `sendErr`: `c.errors <- err`, then back to the `select`. -/
def batchUploader (s : State) : Event → Option State
  | .cancel => some { s with done := true }
  | .handoff b => some { s with resultBatches := s.resultBatches ++ [b] }
  | .takeID => some { s with idsRoom := s.idsRoom + 1 }
  | .takeErr => some { s with errRoom := s.errRoom + 1 }
  | .selectDone =>
    match s.pc with
    | .select =>
      if s.done then some { s with timeout := true, pc := Pc.returned } else none
    | _ => none
  | .selectBatch =>
    match s.pc, s.resultBatches with
    | .select, batch :: rest =>
      some { s with resultBatches := rest, pc := rangeHead batch 0,
                    trace := s.trace ++ [Action.recv batch] }
    | _, _ => none
  | .selectTimeout =>
    match s.pc with
    | .select => if s.timeout then some { s with pc := Pc.returned } else none
    | _ => none
  | .sendID =>
    match s.pc with
    | .sendIDs batch i =>
      match batch[i]?, s.idsRoom with
      | some vid, room + 1 =>
        some { s with idsRoom := room, pc := rangeHead batch (i + 1),
                      trace := s.trace ++ [Action.sendID vid.Video.ID] }
      | _, _ => none
    | _ => none
  | .storeReturns err =>
    match s.pc with
    | .submit batch =>
      match err with
      | none =>
        some { s with pc := Pc.select, trace := s.trace ++ [Action.submit batch none] }
      | some e =>
        some { s with pc := Pc.sendErr batch e,
                      trace := s.trace ++ [Action.submit batch (some e),
                                           Action.logErr (errorLine batch e)] }
    | _ => none
  | .sendErr =>
    match s.pc with
    | .sendErr _ e =>
      match s.errRoom with
      | room + 1 =>
        some { s with errRoom := room, pc := Pc.select,
                      trace := s.trace ++ [Action.sendErr e] }
      | 0 => none
    | _ => none

/-- Run a schedule of events; `none` as soon as one is not enabled. -/
def run (s : State) : List Event → Option State
  | [] => some s
  | e :: es => (batchUploader s e).bind (fun s' => run s' es)

/-- A state in which `batchUploader` has just been started. -/
def State.isInitial (s : State) : Prop :=
  s.pc = Pc.select ∧ s.timeout = false ∧ s.trace = []

instance (s : State) : Decidable s.isInitial := by
  unfold State.isInitial; infer_instance

/-- Is the action a receive from `c.resultBatches`? -/
def Action.isRecv : Action → Bool
  | .recv _ => true
  | _ => false

/-- Put action `a` in front of the pieces `bs` of the trace `t`: a new piece
when `t` begins with a receive (or is empty), else in front of the first
piece. -/
def consBlock (a : Action) (t : List Action) (bs : List (List Action)) :
    List (List Action) :=
  match t, bs with
  | Action.recv _ :: _, bs => [a] :: bs
  | _, blk :: rest => (a :: blk) :: rest
  | _, [] => [[a]]

/-- Cut a trace before every receive: each piece is what the goroutine did
for one received batch. -/
def blocks : List Action → List (List Action)
  | [] => []
  | a :: t => consBlock a t (blocks t)

/-- The identifiers sent on `c.resultIDs` in a piece of trace, in order. -/
def idsOf : List Action → List String
  | [] => []
  | Action.sendID id :: t => id :: idsOf t
  | _ :: t => idsOf t

/-- The errors sent on `c.errors` in a piece of trace, in order. -/
def errsOf : List Action → List GoError
  | [] => []
  | Action.sendErr e :: t => e :: errsOf t
  | _ :: t => errsOf t

/-- The calls of `store.SubmitCrawls` in a piece of trace: argument and result. -/
def submitsOf : List Action → List (Batch × Option GoError)
  | [] => []
  | Action.submit b r :: t => (b, r) :: submitsOf t
  | _ :: t => submitsOf t

/-- The identifiers of the records of a batch, in batch order. -/
def batchIDs (batch : Batch) : List String :=
  batch.map (fun vid => vid.Video.ID)

/-- The ID sends of the `range` loop over the given records. -/
def idActs (cs : List Crawl) : List Action :=
  cs.map (fun vid => Action.sendID vid.Video.ID)

/-- What follows the store call inside `if err != nil`. -/
def errActs (batch : Batch) : Option GoError → List Action
  | none => []
  | some e => [Action.logErr (errorLine batch e), Action.sendErr e]

/-- The whole `case batch := <-c.resultBatches` body for a batch and the
value the store returned for it. -/
def fullBlock (d : Batch × Option GoError) : List Action :=
  Action.recv d.1 :: (idActs d.1 ++ Action.submit d.1 d.2 :: errActs d.1 d.2)

/-- The traces of completely handled batches, one after the other. -/
def history : List (Batch × Option GoError) → List Action
  | [] => []
  | d :: ds => fullBlock d ++ history ds

/-- What the goroutine has done so far for the batch in hand, by control
point. -/
def partialBlock : Pc → List Action
  | .select => []
  | .returned => []
  | .sendIDs b i => Action.recv b :: idActs (b.take i)
  | .submit b => Action.recv b :: idActs b
  | .sendErr b e =>
    Action.recv b :: (idActs b ++ [Action.submit b (some e), Action.logErr (errorLine b e)])

/-- The schedule on which the goroutine, waiting in the `select`, takes the
next batch and handles it to the end, the store returning `r`. -/
def schedule (batch : Batch) (r : Option GoError) : List Event :=
  Event.selectBatch :: (List.replicate batch.length Event.sendID ++
    Event.storeReturns r :: (if r.isSome then [Event.sendErr] else []))

/-- The loop index is inside the batch. -/
def PcOK : Pc → Prop
  | .sendIDs b i => i < b.length
  | _ => True

/-- The trace is a sequence of completely handled batches followed by the
part done for the batch in hand. -/
def Inv (s : State) : Prop :=
  PcOK s.pc ∧ ∃ done, s.trace = history done ++ partialBlock s.pc

/-- A list of actions is empty or begins with a receive. -/
def StartsRecv : List Action → Prop
  | [] => True
  | a :: _ => a.isRecv = true

end worker

namespace worker

open data

/-! ## Concrete inputs -/

/-- A crawled record with identifier `a`. -/
def exA : Crawl := ⟨{ ID := "a" }⟩

/-- A crawled record with identifier `b`. -/
def exB : Crawl := ⟨{ ID := "b" }⟩

/-- An error as the store returns it. -/
def exErr : GoError := ⟨"no reachable servers"⟩

/-- A freshly started uploader with one batch of two records handed off,
room for two identifiers and for one error. -/
def ex0 : State := { resultBatches := [[exA, exB]], idsRoom := 2, errRoom := 1 }

/-- As `ex0`, but nobody reads `c.errors` and it has no free buffer slot. -/
def exNoErrRoom : State := { resultBatches := [[exA, exB]], idsRoom := 2, errRoom := 0 }

/-- A freshly started uploader with a batch of one record handed off. -/
def exOne : State := { resultBatches := [[exA]], idsRoom := 1, errRoom := 1 }

/-- The schedule on which the store rejects the batch of `ex0`. -/
def exFailing : List Event :=
  [Event.selectBatch, Event.sendID, Event.sendID, Event.storeReturns (some exErr)]

/-- The state `ex0` reaches on `exFailing`: logged, about to send the error. -/
def exFailed : State :=
  { pc := Pc.sendErr [exA, exB] exErr, idsRoom := 0, errRoom := 1,
    trace := [Action.recv [exA, exB], Action.sendID "a", Action.sendID "b",
      Action.submit [exA, exB] (some exErr),
      Action.logErr "Uploading crawl of 2 videos failed: no reachable servers"] }

/-- The schedule on which the store accepts the batch of `ex0`. -/
def exStoring : List Event :=
  [Event.selectBatch, Event.sendID, Event.sendID, Event.storeReturns none]

/-- The state `ex0` reaches on `exStoring`: back in the `select`. -/
def exStored : State :=
  { pc := Pc.select, idsRoom := 0, errRoom := 1,
    trace := [Action.recv [exA, exB], Action.sendID "a", Action.sendID "b",
      Action.submit [exA, exB] none] }

/-- The state `ex0` reaches on `exFailing` followed by the error send. -/
def exReported : State :=
  { pc := Pc.select, idsRoom := 0, errRoom := 0,
    trace := [Action.recv [exA, exB], Action.sendID "a", Action.sendID "b",
      Action.submit [exA, exB] (some exErr),
      Action.logErr "Uploading crawl of 2 videos failed: no reachable servers",
      Action.sendErr exErr] }

/-- The state `exNoErrRoom` reaches on `exFailing`: about to send the error
on a channel without room. -/
def exBlocked : State := { exFailed with errRoom := 0 }

/-- A freshly started uploader with two batches handed off. -/
def exTwo : State := { resultBatches := [[exA, exB], [exA]], idsRoom := 3, errRoom := 1 }

/-- The state `exTwo` reaches on `exFailing` followed by the error send: the
first batch handled, the second still in `c.resultBatches`. -/
def exNext : State :=
  { pc := Pc.select, resultBatches := [[exA]], idsRoom := 1, errRoom := 0,
    trace := [Action.recv [exA, exB], Action.sendID "a", Action.sendID "b",
      Action.submit [exA, exB] (some exErr),
      Action.logErr "Uploading crawl of 2 videos failed: no reachable servers",
      Action.sendErr exErr] }

/-- A freshly started uploader, nothing handed off yet. -/
def exIdle : State := { idsRoom := 1, errRoom := 1 }

/-- The state `exIdle` reaches on `exCancelled`: returned, the batch still in
`c.resultBatches`. -/
def exReturned : State :=
  { pc := Pc.returned, timeout := true, done := true, resultBatches := [[exA]],
    idsRoom := 1, errRoom := 1 }

/-- A batch is handed off, then the context is cancelled, then the `select`
takes the cancellation case. -/
def exCancelled : List Event :=
  [Event.handoff [exA], Event.cancel, Event.selectDone]

end worker

namespace strconv

/-- Value of a string of decimal digits, `none` when it is empty or has another
character. -/
def digitsValue (cs : List Char) : Option Nat :=
  if cs.isEmpty then none
  else cs.foldl (fun acc c =>
    match acc with
    | none => none
    | some n => if c.isDigit then some (n * 10 + (c.toNat - '0'.toNat)) else none) (some 0)

/-- Go's `strconv.Atoi`: an optional sign followed by decimal digits, within
the range of a 64-bit `int`. -/
def Atoi (s : String) : Option Int :=
  match s.data with
  | '-' :: cs =>
    match digitsValue cs with
    | some n => if n ≤ 2 ^ 63 then some (-(n : Int)) else none
    | none => none
  | '+' :: cs =>
    match digitsValue cs with
    | some n => if n < 2 ^ 63 then some (n : Int) else none
    | none => none
  | cs =>
    match digitsValue cs with
    | some n => if n < 2 ^ 63 then some (n : Int) else none
    | none => none

/-- Go's `strconv.ParseUint(s, 10, 64)`. -/
def ParseUint (s : String) : Option Nat :=
  match digitsValue s.data with
  | some n => if n < 2 ^ 64 then some n else none
  | none => none

/-- Go's `strconv.ParseBool`. -/
def ParseBool (s : String) : Option Bool :=
  if s = "1" ∨ s = "t" ∨ s = "T" ∨ s = "true" ∨ s = "TRUE" ∨ s = "True" then some true
  else if s = "0" ∨ s = "f" ∨ s = "F" ∨ s = "false" ∨ s = "FALSE" ∨ s = "False" then some false
  else none

end strconv

namespace strings

/-- Go's `strings.HasPrefix s p`: `s` begins with `p`. -/
def HasPrefix (s p : String) : Bool :=
  p.data.isPrefixOf s.data

end strings

namespace fastjson

/-- A parsed JSON value, as `fastjson.Value` holds it: object members in
document order, keys and strings unescaped. -/
inductive Value where
  | null
  | bool (b : Bool)
  | number (raw : String)
  | string (s : String)
  | array (a : List Value)
  | object (kvs : List (String × Value))

/-- The name `Value.Type().String()` gives. -/
def Value.typeName : Value → String
  | .null => "null"
  | .bool true => "true"
  | .bool false => "false"
  | .number _ => "number"
  | .string _ => "string"
  | .array _ => "array"
  | .object _ => "object"

/-- The method `Object.Get`: the value of the first member with the key. -/
def objectGet : List (String × Value) → String → Option Value
  | [], _ => none
  | (k, v) :: kvs, key => if k = key then some v else objectGet kvs key

/-- One key of `Value.Get`: a member of an object, a decimal index into an
array, nothing in any other value. -/
def Value.getKey (v : Value) (key : String) : Option Value :=
  match v with
  | .object kvs => objectGet kvs key
  | .array a =>
    match strconv.Atoi key with
    | some n => if n < 0 then none else a[n.toNat]?
    | none => none
  | _ => none

/-- The method `Value.Get(keys...)`; `none` is the nil pointer. -/
def Value.Get (v : Value) : List String → Option Value
  | [] => some v
  | key :: keys =>
    match v.getKey key with
    | none => none
    | some w => w.Get keys

/-- The method `Value.Exists(keys...)`. -/
def Value.Exists (v : Value) (keys : List String) : Bool :=
  (v.Get keys).isSome

/-- The method `Value.Array()`. -/
def Value.Array (v : Value) : Except GoError (List Value) :=
  match v with
  | .array a => Except.ok a
  | _ => Except.error ⟨"value doesn't contain array; it contains " ++ v.typeName⟩

/-- The method `Value.StringBytes()`. -/
def Value.StringBytes (v : Value) : Except GoError String :=
  match v with
  | .string s => Except.ok s
  | _ => Except.error ⟨"value doesn't contain string; it contains " ++ v.typeName⟩

end fastjson

namespace browseajax

open fastjson

/-- The variable `MissingData = errors.New("missing data")` -/
def MissingData : GoError := ⟨"missing data"⟩

/-- The variable `ServerError = errors.New("server error")` -/
def ServerError : GoError := ⟨"server error"⟩

/-- The loop `for _, item := range root` that finds the response container. -/
def findContainer : List Value → Option Value
  | [] => none
  | item :: root => if item.Exists ["response"] then some item else findContainer root

/-- The loop `for _, item := range items` of `ParsePage`, from the `urls`
collected so far. -/
def enumerate : List Value → List String → Except GoError (List String)
  | [], urls => Except.ok urls
  | item :: items, urls =>
    match item.Get ["gridVideoRenderer", "navigationEndpoint", "commandMetadata",
        "webCommandMetadata", "url"] with
    | none => Except.error MissingData
    | some urlObj =>
      match urlObj.StringBytes with
      | Except.error err => Except.error err
      | Except.ok url =>
        if strings.HasPrefix url "/watch?v" then
          enumerate items (urls ++ ["https://www.youtube.com" ++ url])
        else enumerate items urls

/-- The function `browseajax.ParsePage`. -/
def ParsePage (rootObj : Value) : Except GoError (List String) :=
  match rootObj.Array with
  | Except.error err => Except.error err
  | Except.ok root =>
    match findContainer root with
    | none => Except.error MissingData
    | some container =>
      if container.Exists ["response", "responseContext", "errors", "error"] then
        Except.error ServerError
      else
        match container.Get ["response", "continuationContents", "gridContinuation",
            "items"] with
        | none => Except.error MissingData
        | some itemsObj =>
          match itemsObj.Array with
          | Except.error err => Except.error err
          | Except.ok items => enumerate items []

end browseajax

namespace apijson

open fastjson

/-- What `ParseChannelVideoURLs` reads of an `*http.Response`. -/
structure Response where
  StatusCode : Int
  /-- The text `res.Request.URL.String()` -/
  URL : String
  /-- what `ioutil.ReadAll(res.Body)` yields -/
  Body : Except GoError String

/-- The variable `MissingData = errors.New("missing data")` -/
def MissingData : GoError := ⟨"missing data"⟩

/-- The variable `ServerError = errors.New("server error")` -/
def ServerError : GoError := ⟨"server error"⟩

/-- The loop `for _, item := range root` that finds the response container. -/
def findContainer : List Value → Option Value
  | [] => none
  | item :: root => if item.Exists ["response"] then some item else findContainer root

/-- The loop `for _, item := range items` of `ParseChannelVideoURLs`, from the
`urls` collected so far. -/
def enumerate : List Value → List String → Except GoError (List String)
  | [], urls => Except.ok urls
  | item :: items, urls =>
    match item.Get ["gridVideoRenderer", "navigationEndpoint", "commandMetadata",
        "webCommandMetadata", "url"] with
    | none => Except.error MissingData
    | some urlObj =>
      match urlObj.StringBytes with
      | Except.error err => Except.error err
      | Except.ok url =>
        if strings.HasPrefix url "/watch?v" then
          enumerate items (urls ++ ["https://www.youtube.com" ++ url])
        else enumerate items urls

/-- The function `apijson.ParseChannelVideoURLs`; `ParseBytes` is
`fastjson.Parser.ParseBytes`. -/
def ParseChannelVideoURLs (ParseBytes : String → Except GoError Value) (res : Response) :
    Except GoError (List String) :=
  if res.StatusCode ≠ 200 then Except.error ⟨"HTTP error: " ++ res.URL⟩
  else
    match res.Body with
    | Except.error err => Except.error err
    | Except.ok buf =>
      match ParseBytes buf with
      | Except.error err => Except.error err
      | Except.ok rootObj =>
        match rootObj.Array with
        | Except.error err => Except.error err
        | Except.ok root =>
          match findContainer root with
          | none => Except.error MissingData
          | some container =>
            if container.Exists ["response", "responseContext", "errors", "error"] then
              Except.error ServerError
            else
              match container.Get ["response", "continuationContents", "gridContinuation",
                  "items"] with
              | none => Except.error MissingData
              | some itemsObj =>
                match itemsObj.Array with
                | Except.error err => Except.error err
                | Except.ok items => enumerate items []

end apijson

namespace browseajax

open fastjson

/-- A video item of a grid continuation, with the given url. -/
def exItem (url : String) : Value :=
  Value.object [("gridVideoRenderer", Value.object [("videoId", Value.string "x"),
    ("navigationEndpoint", Value.object [("commandMetadata",
      Value.object [("webCommandMetadata", Value.object [("url", Value.string url)])])])])]

/-- Three items: a video, a playlist, a video. -/
def exItems : List Value :=
  [exItem "/watch?v=abc", exItem "/playlist?list=PL1", exItem "/watch?v=def&t=3"]

/-- The element of the root array that holds the response. -/
def exContainer : Value :=
  Value.object [("response", Value.object [("responseContext", Value.object []),
    ("continuationContents", Value.object [("gridContinuation",
      Value.object [("items", Value.array exItems)])])])]

/-- A browse-AJAX payload: the container comes second. -/
def exRoot : Value :=
  Value.array [Value.object [("page", Value.string "browse")], exContainer]

/-- The text of the payload `exRoot`. -/
def exBody : String :=
  "[\x7b\"page\":\"browse\"\x7d,\x7b\"response\":\x7b\"responseContext\":\x7b\x7d," ++
  "\"continuationContents\":\x7b\"gridContinuation\":\x7b\"items\":[" ++
  "\x7b\"gridVideoRenderer\":\x7b\"videoId\":\"x\",\"navigationEndpoint\":\x7b\"commandMetadata\":" ++
  "\x7b\"webCommandMetadata\":\x7b\"url\":\"/watch?v=abc\"\x7d\x7d\x7d\x7d\x7d," ++
  "\x7b\"gridVideoRenderer\":\x7b\"videoId\":\"x\",\"navigationEndpoint\":\x7b\"commandMetadata\":" ++
  "\x7b\"webCommandMetadata\":\x7b\"url\":\"/playlist?list=PL1\"\x7d\x7d\x7d\x7d\x7d," ++
  "\x7b\"gridVideoRenderer\":\x7b\"videoId\":\"x\",\"navigationEndpoint\":\x7b\"commandMetadata\":" ++
  "\x7b\"webCommandMetadata\":\x7b\"url\":\"/watch?v=def&t=3\"\x7d\x7d\x7d\x7d\x7d]\x7d\x7d\x7d\x7d]"

/-- A 200 response with the body `exBody`. -/
def exResponse : apijson.Response :=
  { StatusCode := 200, URL := "https://www.youtube.com/browse_ajax", Body := Except.ok exBody }

/-- A stand-in for the JSON parser that knows the text `exBody`. -/
def exParseBytes (buf : String) : Except GoError Value :=
  if buf = exBody then Except.ok exRoot else Except.error ⟨"cannot parse JSON"⟩

end browseajax

namespace apiclassic

open data

/-- The kind of a `<meta>` tag: which attribute names it. The declaration is
not among the source files; the three constants are those `parseMetas`
switches on. -/
inductive metaType where
  | metaProperty
  | metaName
  | metaItemProp
deriving DecidableEq, Repr

/-- A `<meta>` tag as the callback of `enumMetas` receives it: `tag.typ`,
`tag.name`, `tag.content`. -/
structure metaTag where
  typ : metaType
  name : String
  content : String
deriving DecidableEq, Repr

/-- The library and package functions `parseMetas` calls whose code is not
among the source files. -/
structure External where
  /-- The call `time.Parse("2006-01-02", content)`, `none` on error -/
  timeParse : String → Option Int
  /-- The call `api.ParseDuration(content)` -/
  ParseDuration : String → Except GoError Nat

/-- The variables the function literal in `parseMetas` captures: the video
`p.v` and the named result `err` of `parseMetas`. -/
structure Captured where
  v : Video
  err : Option GoError
deriving DecidableEq, Repr

/-- Modelled from the spec: `enumMetas` is not among the source files. It
hands the `<meta>` tags of the document to the callback in document order
and stops as soon as the callback returns `false`; the document is given by
the list of its `<meta>` tags. -/
def enumMetas {σ : Type} (tags : List metaTag) (f : metaTag → σ → σ × Bool) (st : σ) : σ :=
  match tags with
  | [] => st
  | tag :: rest =>
    match f tag st with
    | (st', true) => enumMetas rest f st'
    | (st', false) => st'

/-- The function literal passed to `enumMetas` in `parseMetas`. Every `err`
it declares (`val, err := ...`) is a new variable of the `if` statement; the
captured `err` is never assigned. -/
def metaCallback (ext : External) (tag : metaTag) (c : Captured) : Captured × Bool :=
  let content := tag.content
  match tag.typ with
  | .metaProperty =>
    if tag.name = "og:title" then ({ c with v := { c.v with Title := content } }, true)
    else if tag.name = "og:video:tag" then
      ({ c with v := { c.v with Tags := c.v.Tags ++ [content] } }, true)
    else if tag.name = "og:url" then ({ c with v := { c.v with URL := content } }, true)
    else if tag.name = "og:image" then
      ({ c with v := { c.v with Thumbnail := content } }, true)
    else (c, true)
  | .metaName => (c, true)
  | .metaItemProp =>
    if tag.name = "datePublished" then
      match ext.timeParse content with
      | some val => ({ c with v := { c.v with UploadDate := val } }, true)
      | none => (c, true)
    else if tag.name = "genre" then ({ c with v := { c.v with Genre := content } }, true)
    else if tag.name = "channelId" then
      ({ c with v := { c.v with UploaderID := content } }, true)
    else if tag.name = "duration" then
      match ext.ParseDuration content with
      | Except.ok val => ({ c with v := { c.v with Duration := val } }, true)
      | Except.error _ => (c, false)
    else if tag.name = "isFamilyFriendly" then
      match strconv.ParseBool content with
      | some val => ({ c with v := { c.v with FamilyFriendly := val } }, true)
      | none => (c, true)
    else if tag.name = "interactionCount" then
      match strconv.ParseUint content with
      | some val => ({ c with v := { c.v with Views := val } }, true)
      | none => (c, true)
    else (c, true)

/-- The method `parseVideoInfo.parseMetas`: the video afterwards and the returned `err`.
The named result starts as nil. -/
def parseMetas (ext : External) (doc : List metaTag) (v : Video) : Video × Option GoError :=
  let c := enumMetas doc (metaCallback ext) { v := v, err := none }
  (c.v, c.err)

/-- The steps of `parse` that read the document through goquery, each by its
outcome on the document at hand. -/
structure Steps where
  checkAvailability : Except GoError Bool
  parseLikeDislike : Video → Except GoError Video
  parseUploader : Video → Except GoError Video
  parseDescription : Video → Except GoError Video
  parsePlayerConfig : Video → Except GoError Video
  /-- the identifiers `parseRecommends` appends; it always returns nil -/
  parseRecommends : List String
  parseLicense : Video → Video

/-- The variable `VideoUnavailable` of package `api`. -/
def VideoUnavailable : GoError := ⟨"video unavailable"⟩

/-- The method `parseVideoInfo.parse`: the recommendations and the video afterwards, or
the error. -/
def parse (ext : External) (steps : Steps) (doc : List metaTag) (v : Video) :
    Except GoError (List String × Video) :=
  match steps.checkAvailability with
  | Except.error err => Except.error err
  | Except.ok false => Except.error VideoUnavailable
  | Except.ok true =>
    match steps.parseLikeDislike v with
    | Except.error err => Except.error err
    | Except.ok v1 =>
      match steps.parseUploader v1 with
      | Except.error err => Except.error err
      | Except.ok v2 =>
        match steps.parseDescription v2 with
        | Except.error err => Except.error err
        | Except.ok v3 =>
          match steps.parsePlayerConfig v3 with
          | Except.error err => Except.error err
          | Except.ok v4 =>
            match parseMetas ext doc v4 with
            | (_, some err) => Except.error err
            | (v5, none) => Except.ok (steps.parseRecommends, steps.parseLicense v5)

/-- Is the tag an `itemprop="duration"` tag whose content `api.ParseDuration`
rejects? -/
def rejectedDuration (ext : External) (tag : metaTag) : Bool :=
  tag.typ == metaType.metaItemProp && tag.name == "duration" &&
    (match ext.ParseDuration tag.content with
     | Except.ok _ => false
     | Except.error _ => true)

/-- A duration parser for the examples: decimal seconds. -/
def exExternal : External :=
  { timeParse := fun _ => none
    ParseDuration := fun s =>
      match strconv.ParseUint s with
      | some n => Except.ok n
      | none => Except.error ⟨"bad duration"⟩ }

/-- A title, a duration that does not parse, then a genre. -/
def exDoc : List metaTag :=
  [⟨metaType.metaProperty, "og:title", "Me at the zoo"⟩,
   ⟨metaType.metaItemProp, "duration", "PT0M19S"⟩,
   ⟨metaType.metaItemProp, "genre", "Film"⟩]

/-- Steps that all succeed and leave the video as it is. -/
def exSteps : Steps :=
  { checkAvailability := Except.ok true
    parseLikeDislike := Except.ok
    parseUploader := Except.ok
    parseDescription := Except.ok
    parsePlayerConfig := Except.ok
    parseRecommends := ["jNQXAC9IVRw"]
    parseLicense := id }

end apiclassic

namespace worker

open data

/-! ## The shape of every reachable trace -/

theorem history_append (ds : List (Batch × Option GoError)) (d : Batch × Option GoError) :
    history (ds ++ [d]) = history ds ++ fullBlock d := by
  induction ds with
  | nil => simp [history]
  | cons x xs ih => simp [history, ih]

theorem idActs_take_succ (b : Batch) (i : Nat) (vid : Crawl) (h : b[i]? = some vid) :
    idActs (b.take (i + 1)) = idActs (b.take i) ++ [Action.sendID vid.Video.ID] := by
  simp [idActs, List.take_succ, h]

theorem Inv_step (s s' : State) (e : Event) (hinv : Inv s) (h : batchUploader s e = some s') :
    Inv s' := by
  obtain ⟨hpc, done, htr⟩ := hinv
  cases e with
  | cancel => simp [batchUploader] at h; subst h; exact ⟨hpc, done, htr⟩
  | handoff b => simp [batchUploader] at h; subst h; exact ⟨hpc, done, htr⟩
  | takeID => simp [batchUploader] at h; subst h; exact ⟨hpc, done, htr⟩
  | takeErr => simp [batchUploader] at h; subst h; exact ⟨hpc, done, htr⟩
  | selectDone =>
    cases hp : s.pc <;> simp [batchUploader, hp] at h
    obtain ⟨_, h⟩ := h
    subst h
    refine ⟨trivial, done, ?_⟩
    simpa [hp, partialBlock] using htr
  | selectTimeout =>
    cases hp : s.pc <;> simp [batchUploader, hp] at h
    obtain ⟨_, h⟩ := h
    subst h
    refine ⟨trivial, done, ?_⟩
    simpa [hp, partialBlock] using htr
  | selectBatch =>
    cases hp : s.pc <;> cases hq : s.resultBatches <;> simp [batchUploader, hp, hq] at h
    subst h
    rename_i b rest
    rw [hp] at htr
    by_cases hb : 0 < b.length
    · refine ⟨by simp [rangeHead, hb, PcOK], done, ?_⟩
      simp [rangeHead, hb, partialBlock, htr, idActs]
    · have : b = [] := by
        cases b with
        | nil => rfl
        | cons x xs => simp at hb
      subst this
      refine ⟨by simp [rangeHead, PcOK], done, ?_⟩
      simp [rangeHead, partialBlock, htr, idActs]
  | sendID =>
    cases hp : s.pc <;> simp [batchUploader, hp] at h
    rename_i b i
    rw [hp] at htr hpc
    cases hv : b[i]? with
    | none => simp [hv] at h
    | some vid =>
      cases hr : s.idsRoom with
      | zero => simp [hv, hr] at h
      | succ room =>
        simp [hv, hr] at h
        subst h
        by_cases hi : i + 1 < b.length
        · refine ⟨by simp [rangeHead, hi, PcOK], done, ?_⟩
          simp [rangeHead, hi, partialBlock, htr, idActs_take_succ b i vid hv]
        · have hlen : i + 1 = b.length := by
            simp [PcOK] at hpc; omega
          refine ⟨by simp [rangeHead, hi, PcOK], done, ?_⟩
          have ht : b.take (i + 1) = b := by rw [hlen]; exact List.take_length b
          have := idActs_take_succ b i vid hv
          rw [ht] at this
          simp [rangeHead, hi, partialBlock, htr, this]
  | storeReturns r =>
    cases hp : s.pc <;> simp [batchUploader, hp] at h
    rename_i b
    rw [hp] at htr
    cases r with
    | none =>
      simp at h
      subst h
      refine ⟨trivial, done ++ [(b, none)], ?_⟩
      simp [history_append, fullBlock, errActs, partialBlock, htr]
    | some e =>
      simp at h
      subst h
      refine ⟨trivial, done, ?_⟩
      simp [partialBlock, htr]
  | sendErr =>
    cases hp : s.pc <;> simp [batchUploader, hp] at h
    rename_i b e
    rw [hp] at htr
    cases hr : s.errRoom with
    | zero => simp [hr] at h
    | succ room =>
      simp [hr] at h
      subst h
      refine ⟨trivial, done ++ [(b, some e)], ?_⟩
      simp [history_append, fullBlock, errActs, partialBlock, htr]

theorem Inv_run (es : List Event) (s s' : State) (hinv : Inv s) (h : run s es = some s') :
    Inv s' := by
  induction es generalizing s with
  | nil => simp [run] at h; subst h; exact hinv
  | cons e es ih =>
    simp only [run] at h
    cases hs : batchUploader s e with
    | none => simp [hs] at h
    | some s1 =>
      simp [hs] at h
      exact ih s1 (Inv_step s s1 e hinv hs) h

theorem Inv_initial (s : State) (h : s.isInitial) : Inv s := by
  obtain ⟨hpc, _, htr⟩ := h
  refine ⟨by simp [hpc, PcOK], [], ?_⟩
  simp [hpc, htr, history, partialBlock]

/-! ## Cutting a reachable trace into per-batch pieces -/

theorem blocks_cons_of_startsRecv (a : Action) (t : List Action) (ht : StartsRecv t) :
    blocks (a :: t) = [a] :: blocks t := by
  cases t with
  | nil => simp [blocks, consBlock]
  | cons x xs =>
    cases x <;> simp [StartsRecv, Action.isRecv] at ht
    simp [blocks, consBlock]

theorem blocks_cons_cons (a x : Action) (t : List Action) (hx : x.isRecv = false)
    (blk : List Action) (rest : List (List Action)) (h : blocks (x :: t) = blk :: rest) :
    blocks (a :: x :: t) = (a :: blk) :: rest := by
  cases x <;> simp [Action.isRecv] at hx <;> rw [blocks, h] <;> simp [consBlock]

theorem blocks_piece (a : Action) (l t : List Action)
    (hl : ∀ x ∈ l, x.isRecv = false) (ht : StartsRecv t) :
    blocks (a :: (l ++ t)) = (a :: l) :: blocks t := by
  induction l generalizing a with
  | nil => simpa using blocks_cons_of_startsRecv a t ht
  | cons x xs ih =>
    have hx : x.isRecv = false := hl x (by simp)
    have hxs : ∀ y ∈ xs, y.isRecv = false := fun y hy => hl y (by simp [hy])
    have := ih x hxs
    simpa using blocks_cons_cons a x (xs ++ t) hx (x :: xs) (blocks t) this

theorem idActs_not_recv (cs : List Crawl) : ∀ x ∈ idActs cs, x.isRecv = false := by
  intro x hx
  simp [idActs] at hx
  obtain ⟨_, _, rfl⟩ := hx
  rfl

theorem errActs_not_recv (b : Batch) (r : Option GoError) :
    ∀ x ∈ errActs b r, x.isRecv = false := by
  intro x hx
  cases r <;> simp [errActs] at hx
  rcases hx with rfl | rfl <;> rfl

theorem history_startsRecv (ds : List (Batch × Option GoError)) (t : List Action)
    (ht : StartsRecv t) : StartsRecv (history ds ++ t) := by
  cases ds with
  | nil => simpa [history] using ht
  | cons d ds => simp [history, fullBlock, StartsRecv, Action.isRecv]

theorem blocks_fullBlock_append (d : Batch × Option GoError) (t : List Action)
    (ht : StartsRecv t) : blocks (fullBlock d ++ t) = fullBlock d :: blocks t := by
  have h := blocks_piece (Action.recv d.1)
    (idActs d.1 ++ Action.submit d.1 d.2 :: errActs d.1 d.2) t ?_ ht
  · simpa [fullBlock] using h
  · intro x hx
    simp at hx
    rcases hx with hx | rfl | hx
    · exact idActs_not_recv _ x hx
    · rfl
    · exact errActs_not_recv _ _ x hx

theorem blocks_history_append (ds : List (Batch × Option GoError)) (t : List Action)
    (ht : StartsRecv t) : blocks (history ds ++ t) = ds.map fullBlock ++ blocks t := by
  induction ds with
  | nil => simp [history]
  | cons d ds ih =>
    have := blocks_fullBlock_append d (history ds ++ t) (history_startsRecv ds t ht)
    simp [history, List.append_assoc, this, ih]

theorem partialBlock_startsRecv (pc : Pc) : StartsRecv (partialBlock pc) := by
  cases pc <;> simp [partialBlock, StartsRecv, Action.isRecv]

theorem blocks_partialBlock (pc : Pc) :
    blocks (partialBlock pc) = if partialBlock pc = [] then [] else [partialBlock pc] := by
  cases pc with
  | select => simp [partialBlock, blocks]
  | returned => simp [partialBlock, blocks]
  | sendIDs b i =>
    have := blocks_piece (Action.recv b) (idActs (b.take i)) [] (idActs_not_recv _) trivial
    simpa [partialBlock, blocks] using this
  | submit b =>
    have := blocks_piece (Action.recv b) (idActs b) [] (idActs_not_recv _) trivial
    simpa [partialBlock, blocks] using this
  | sendErr b e =>
    have := blocks_piece (Action.recv b)
      (idActs b ++ [Action.submit b (some e), Action.logErr (errorLine b e)]) [] ?_ trivial
    · simpa [partialBlock, blocks] using this
    · intro x hx
      simp at hx
      rcases hx with hx | rfl | rfl
      · exact idActs_not_recv _ x hx
      · rfl
      · rfl

/-- Every piece of a reachable trace is a completely handled batch, or it is
the piece of the batch in hand. -/
theorem block_cases (s : State) (hinv : Inv s) (blk : List Action)
    (hblk : blk ∈ blocks s.trace) :
    (∃ b r, blk = fullBlock (b, r)) ∨ (blk = partialBlock s.pc ∧ blk ≠ []) := by
  obtain ⟨_, done, htr⟩ := hinv
  rw [htr, blocks_history_append done _ (partialBlock_startsRecv s.pc),
    blocks_partialBlock] at hblk
  simp only [List.mem_append, List.mem_map] at hblk
  rcases hblk with ⟨d, _, rfl⟩ | hblk
  · exact Or.inl ⟨d.1, d.2, rfl⟩
  · right
    split at hblk
    · simp at hblk
    · rename_i hne
      simp at hblk
      subst hblk
      exact ⟨rfl, hne⟩

/-! ## What a piece contains -/

theorem idsOf_append (l t : List Action) : idsOf (l ++ t) = idsOf l ++ idsOf t := by
  induction l with
  | nil => rfl
  | cons a l ih => cases a <;> simp [idsOf, ih]

theorem errsOf_append (l t : List Action) : errsOf (l ++ t) = errsOf l ++ errsOf t := by
  induction l with
  | nil => rfl
  | cons a l ih => cases a <;> simp [errsOf, ih]

theorem submitsOf_append (l t : List Action) :
    submitsOf (l ++ t) = submitsOf l ++ submitsOf t := by
  induction l with
  | nil => rfl
  | cons a l ih => cases a <;> simp [submitsOf, ih]

theorem idsOf_idActs (cs : List Crawl) : idsOf (idActs cs) = batchIDs cs := by
  induction cs with
  | nil => rfl
  | cons c cs ih =>
    simp only [idActs, List.map_cons, idsOf, batchIDs] at ih ⊢
    rw [ih]

theorem errsOf_idActs (cs : List Crawl) : errsOf (idActs cs) = [] := by
  induction cs with
  | nil => rfl
  | cons c cs ih => simpa [idActs, errsOf] using ih

theorem submitsOf_idActs (cs : List Crawl) : submitsOf (idActs cs) = [] := by
  induction cs with
  | nil => rfl
  | cons c cs ih => simpa [idActs, submitsOf] using ih

theorem idsOf_fullBlock (b : Batch) (r : Option GoError) :
    idsOf (fullBlock (b, r)) = batchIDs b := by
  cases r <;> simp [fullBlock, idsOf, idsOf_append, idsOf_idActs, errActs]

theorem errsOf_fullBlock (b : Batch) (r : Option GoError) :
    errsOf (fullBlock (b, r)) = r.toList := by
  cases r <;> simp [fullBlock, errsOf, errsOf_append, errsOf_idActs, errActs]

theorem submitsOf_fullBlock (b : Batch) (r : Option GoError) :
    submitsOf (fullBlock (b, r)) = [(b, r)] := by
  cases r <;> simp [fullBlock, submitsOf, submitsOf_append, submitsOf_idActs, errActs]

theorem submitsOf_partialBlock (pc : Pc) :
    submitsOf (partialBlock pc) =
      match pc with
      | .sendErr b e => [(b, some e)]
      | _ => [] := by
  cases pc <;>
    simp [partialBlock, submitsOf, submitsOf_append, submitsOf_idActs]

theorem errsOf_partialBlock (pc : Pc) : errsOf (partialBlock pc) = [] := by
  cases pc <;> simp [partialBlock, errsOf, errsOf_append, errsOf_idActs]

/-! ## Handling a batch to the end when the channels have room -/

theorem run_append (s : State) (es fs : List Event) :
    run s (es ++ fs) = (run s es).bind (fun s' => run s' fs) := by
  induction es generalizing s with
  | nil => simp [run]
  | cons e es ih =>
    simp only [List.cons_append, run]
    cases batchUploader s e with
    | none => rfl
    | some s1 => simpa using ih s1

theorem run_sendIDs (b : Batch) (n : Nat) : ∀ (i : Nat) (s : State),
    s.pc = rangeHead b i → i + n = b.length → n ≤ s.idsRoom →
    ∃ s', run s (List.replicate n Event.sendID) = some s' ∧ s'.pc = Pc.submit b ∧
      s'.trace = s.trace ++ idActs (b.drop i) ∧ s'.errRoom = s.errRoom ∧
      s'.resultBatches = s.resultBatches := by
  induction n with
  | zero =>
    intro i s hpc hi _
    have hlen : ¬ i < b.length := by omega
    refine ⟨s, rfl, ?_, ?_, rfl, rfl⟩
    · simpa [rangeHead, hlen] using hpc
    · have : b.drop i = [] := List.drop_eq_nil_of_le (by omega)
      simp [this, idActs]
  | succ n ih =>
    intro i s hpc hi hroom
    have hlt : i < b.length := by omega
    have hpc1 : s.pc = Pc.sendIDs b i := by simpa [rangeHead, hlt] using hpc
    obtain ⟨room, hr⟩ : ∃ room, s.idsRoom = room + 1 := ⟨s.idsRoom - 1, by omega⟩
    have hget : b[i]? = some b[i] := List.getElem?_eq_getElem hlt
    have hstep : batchUploader s Event.sendID =
        some { s with idsRoom := room, pc := rangeHead b (i + 1),
                      trace := s.trace ++ [Action.sendID b[i].Video.ID] } := by
      simp [batchUploader, hpc1, hget, hr]
    obtain ⟨s', h1, h2, h3, h4, h5⟩ := ih (i + 1)
      { s with idsRoom := room, pc := rangeHead b (i + 1),
               trace := s.trace ++ [Action.sendID b[i].Video.ID] } rfl (by omega)
      (show n ≤ room by omega)
    refine ⟨s', ?_, h2, ?_, h4, h5⟩
    · simp only [List.replicate_succ, run, hstep]
      simpa using h1
    · rw [h3]
      have : b.drop i = b[i] :: b.drop (i + 1) := List.drop_eq_getElem_cons hlt
      rw [this]
      simp only [idActs, List.map_cons, List.append_assoc, List.singleton_append]

/-- Progress: waiting in the `select` with a batch in `c.resultBatches`, room
for its identifiers on `c.resultIDs` and, when the store fails, room for one
error on `c.errors`, the goroutine handles the batch to the end and is back
in the `select`. -/
theorem handle_completes (s : State) (b : Batch) (q : List Batch) (r : Option GoError)
    (hpc : s.pc = Pc.select) (hq : s.resultBatches = b :: q)
    (hids : b.length ≤ s.idsRoom) (herr : r.isSome = true → 0 < s.errRoom) :
    ∃ s', run s (schedule b r) = some s' ∧ s'.pc = Pc.select ∧
      s'.trace = s.trace ++ fullBlock (b, r) ∧ s'.resultBatches = q := by
  have hstep : batchUploader s Event.selectBatch =
      some { s with resultBatches := q, pc := rangeHead b 0,
                    trace := s.trace ++ [Action.recv b] } := by
    simp [batchUploader, hpc, hq]
  obtain ⟨s1, h1, h2, h3, h4, h5⟩ := run_sendIDs b b.length 0
    { s with resultBatches := q, pc := rangeHead b 0,
             trace := s.trace ++ [Action.recv b] } rfl (by simp) hids
  simp only [schedule, run, hstep, Option.some_bind, run_append, h1]
  cases r with
  | none =>
    refine ⟨{ s1 with pc := Pc.select, trace := s1.trace ++ [Action.submit b none] }, ?_, rfl, ?_, ?_⟩
    · simp [run, batchUploader, h2]
    · simp [h3, fullBlock, errActs]
    · simpa using h5
  | some e =>
    obtain ⟨room, hr⟩ : ∃ room, s1.errRoom = room + 1 :=
      ⟨s1.errRoom - 1, by have := herr rfl; simp at h4; omega⟩
    refine ⟨{ s1 with errRoom := room, pc := Pc.select,
                      trace := s1.trace ++ [Action.submit b (some e),
                        Action.logErr (errorLine b e)] ++ [Action.sendErr e] }, ?_, rfl, ?_, ?_⟩
    · simp [run, batchUploader, h2, hr]
    · simp [h3, fullBlock, errActs]
    · simpa using h5

/-- Handling one more batch to the end adds exactly one piece. -/
theorem blocks_append_fullBlock (s : State) (hinv : Inv s) (hpc : s.pc = Pc.select)
    (d : Batch × Option GoError) :
    blocks (s.trace ++ fullBlock d) = blocks s.trace ++ [fullBlock d] := by
  obtain ⟨_, done, htr⟩ := hinv
  rw [hpc] at htr
  simp only [partialBlock, List.append_nil] at htr
  have h1 := blocks_history_append (done ++ [d]) [] trivial
  have h2 := blocks_history_append done [] trivial
  simp only [List.append_nil, blocks, history_append, List.map_append, List.map_cons,
    List.map_nil] at h1 h2
  rw [htr, h1, h2]

/-- Progress at the error send: at `c.errors <- err` with room on `c.errors`
the send is made, the goroutine is back in the `select`, and the last piece
of the trace is the completely handled batch. -/
theorem sendErr_completes (s : State) (hinv : Inv s) (b : Batch) (e : GoError)
    (hpc : s.pc = Pc.sendErr b e) (hroom : 0 < s.errRoom) :
    ∃ s', batchUploader s Event.sendErr = some s' ∧ s'.pc = Pc.select ∧
      s'.trace = s.trace ++ [Action.sendErr e] ∧
      ∃ pre, blocks s'.trace = pre ++ [fullBlock (b, some e)] := by
  obtain ⟨_, done, htr⟩ := hinv
  rw [hpc] at htr
  obtain ⟨room, hr⟩ : ∃ room, s.errRoom = room + 1 := ⟨s.errRoom - 1, by omega⟩
  refine ⟨{ s with errRoom := room, pc := Pc.select,
                   trace := s.trace ++ [Action.sendErr e] }, ?_, rfl, rfl, done.map fullBlock, ?_⟩
  · simp [batchUploader, hpc, hr]
  · have h1 := blocks_history_append (done ++ [(b, some e)]) [] trivial
    simp only [List.append_nil, blocks, history_append, List.map_append, List.map_cons,
      List.map_nil] at h1
    have h2 : s.trace ++ [Action.sendErr e] = history done ++ fullBlock (b, some e) := by
      rw [htr]
      simp [partialBlock, fullBlock, errActs]
    show blocks (s.trace ++ [Action.sendErr e]) = _
    rw [h2, h1]

/-! ## The grace timer -/

theorem timeout_step (s s' : State) (e : Event)
    (h : s.timeout = true → s.pc = Pc.returned) (hs : batchUploader s e = some s') :
    s'.timeout = true → s'.pc = Pc.returned := by
  cases e with
  | cancel => simp [batchUploader] at hs; subst hs; exact h
  | handoff b => simp [batchUploader] at hs; subst hs; exact h
  | takeID => simp [batchUploader] at hs; subst hs; exact h
  | takeErr => simp [batchUploader] at hs; subst hs; exact h
  | selectDone =>
    cases hp : s.pc <;> simp [batchUploader, hp] at hs
    obtain ⟨_, hs⟩ := hs
    subst hs
    intro _
    rfl
  | selectTimeout =>
    cases hp : s.pc <;> simp [batchUploader, hp] at hs
    obtain ⟨_, hs⟩ := hs
    subst hs
    intro _
    rfl
  | selectBatch =>
    cases hp : s.pc <;> cases hq : s.resultBatches <;> simp [batchUploader, hp, hq] at hs
    subst hs
    intro ht
    have := h ht
    simp [hp] at this
  | sendID =>
    cases hp : s.pc <;> simp [batchUploader, hp] at hs
    rename_i b i
    cases hv : b[i]? <;> cases hr : s.idsRoom <;> simp [hv, hr] at hs
    subst hs
    intro ht
    have := h ht
    simp [hp] at this
  | storeReturns r =>
    cases hp : s.pc <;> simp [batchUploader, hp] at hs
    cases r <;> simp at hs <;> subst hs <;> intro ht <;> have := h ht <;> simp [hp] at this
  | sendErr =>
    cases hp : s.pc <;> simp [batchUploader, hp] at hs
    cases hr : s.errRoom <;> simp [hr] at hs
    subst hs
    intro ht
    have := h ht
    simp [hp] at this

/-- The `timeout` channel is nil whenever the goroutine is in the `select`:
the case `<-timeout` is never taken. -/
theorem timeout_case_dead (s0 s : State) (es : List Event)
    (h0 : s0.isInitial) (hrun : run s0 es = some s) :
    batchUploader s Event.selectTimeout = none := by
  have key : ∀ (es : List Event) (s1 s2 : State),
      (s1.timeout = true → s1.pc = Pc.returned) → run s1 es = some s2 →
      (s2.timeout = true → s2.pc = Pc.returned) := by
    intro es
    induction es with
    | nil =>
      intro s1 s2 h hr
      simp [run] at hr
      subst hr
      exact h
    | cons e es ih =>
      intro s1 s2 h hr
      simp only [run] at hr
      cases hs : batchUploader s1 e with
      | none => simp [hs] at hr
      | some s3 =>
        simp [hs] at hr
        exact ih s3 s2 (timeout_step s1 s3 e h hs) hr
  have hinit : s0.timeout = true → s0.pc = Pc.returned := by
    intro ht
    rw [h0.2.1] at ht
    exact absurd ht (by simp)
  have hs := key es s0 s hinit hrun
  cases hp : s.pc <;> simp [batchUploader, hp]
  cases ht : s.timeout with
  | false => rfl
  | true =>
    have := hs ht
    simp [hp] at this

end worker

namespace worker

open data

/-! ## The batch uploader: claims -/

/-- C1, as stated, fails: on the batch `[a, b]` the store returns an error, and
the piece of trace of that batch holds the sends of both identifiers `a` and
`b` on `c.resultIDs`, made before the store was called. -/
theorem C1_counterexample :
    ex0.isInitial ∧
    (run ex0 exFailing).map (fun s => (blocks s.trace).map (fun blk => (submitsOf blk, idsOf blk)))
      = some [([([exA, exB], some exErr)], ["a", "b"])] := by
  decide

/-- C1, amended: for every batch received, once `store.SubmitCrawls` has
returned for it, with an error or not, every identifier of the batch has
already been sent on `c.resultIDs`, in batch order and before the call; no
identifier is sent after the call. -/
theorem C1_ids_sent_before_submit (s0 s : State) (es : List Event)
    (h0 : s0.isInitial) (hrun : run s0 es = some s)
    (blk : List Action) (hblk : blk ∈ blocks s.trace)
    (b : Batch) (r : Option GoError) (hs : (b, r) ∈ submitsOf blk) :
    ∃ post, blk = Action.recv b :: (idActs b ++ Action.submit b r :: post) ∧
      idsOf post = [] ∧ idsOf blk = batchIDs b := by
  have hinv := Inv_run es s0 s (Inv_initial s0 h0) hrun
  rcases block_cases s hinv blk hblk with ⟨b0, r0, rfl⟩ | ⟨hp, _⟩
  · rw [submitsOf_fullBlock] at hs
    simp at hs
    obtain ⟨rfl, rfl⟩ := hs
    refine ⟨errActs b r, rfl, ?_, idsOf_fullBlock b r⟩
    cases r <;> simp [errActs, idsOf]
  · rw [hp, submitsOf_partialBlock] at hs
    cases hpc : s.pc <;> simp [hpc] at hs
    obtain ⟨rfl, rfl⟩ := hs
    rename_i e
    refine ⟨[Action.logErr (errorLine b e)], ?_, ?_, ?_⟩
    · simp [hp, hpc, partialBlock]
    · simp [idsOf]
    · simp [hp, hpc, partialBlock, idsOf, idsOf_append, idsOf_idActs]

/-- Witness of `C1_ids_sent_before_submit` on the failing run of `ex0`. -/
theorem C1_ids_sent_before_submit_witness :
    ∃ post, exFailed.trace = Action.recv [exA, exB] ::
          (idActs [exA, exB] ++ Action.submit [exA, exB] (some exErr) :: post) ∧
      idsOf post = [] ∧ idsOf exFailed.trace = batchIDs [exA, exB] :=
  C1_ids_sent_before_submit ex0 exFailed exFailing (by decide) (by decide) exFailed.trace
    (by decide) [exA, exB] (some exErr) (by decide)

/-- C2: for every batch for which `store.SubmitCrawls` returned success, the
identifiers sent on `c.resultIDs` for that batch are, as a multiset, the
identifiers of the batch's records: each is sent as often as it occurs among
the records. -/
theorem C2_ids_on_success (s0 s : State) (es : List Event)
    (h0 : s0.isInitial) (hrun : run s0 es = some s)
    (blk : List Action) (hblk : blk ∈ blocks s.trace)
    (b : Batch) (hb : blk.head? = some (Action.recv b))
    (hok : ∃ b', (b', none) ∈ submitsOf blk) :
    (↑(idsOf blk) : Multiset String) = ↑(batchIDs b) ∧
      ∀ id, (idsOf blk).count id = (batchIDs b).count id := by
  have hinv := Inv_run es s0 s (Inv_initial s0 h0) hrun
  obtain ⟨b', hok⟩ := hok
  have key : idsOf blk = batchIDs b := by
    rcases block_cases s hinv blk hblk with ⟨b0, r0, rfl⟩ | ⟨hp, _⟩
    · simp [fullBlock] at hb
      subst hb
      exact idsOf_fullBlock b0 r0
    · rw [hp, submitsOf_partialBlock] at hok
      cases hpc : s.pc <;> simp [hpc] at hok
  exact ⟨by rw [key], fun id => by rw [key]⟩

/-- Witness of `C2_ids_on_success` on the successful run of `ex0`. -/
theorem C2_ids_on_success_witness :
    (↑(idsOf exStored.trace) : Multiset String) = ↑(batchIDs [exA, exB]) ∧
      ∀ id, (idsOf exStored.trace).count id = (batchIDs [exA, exB]).count id :=
  C2_ids_on_success ex0 exStored exStoring (by decide) (by decide) exStored.trace
    (by decide) [exA, exB] (by decide) ⟨[exA, exB], by decide⟩

/-- C3: for every batch, no error is sent on `c.errors` before the store call
returns; when the call returned success none is sent at all; when it returned
an error, that one error has been sent exactly once, or the goroutine is at
this very send (`c.errors <- err`) and has sent none yet. The send is made:
at `c.errors <- err` with room on `c.errors` the step exists and leaves the
batch with exactly that one error sent; and from the `select`, with room on
the channels, the next batch is handled to the end with one error sent when
the store fails and none when it succeeds. -/
theorem C3_errors_sent (s0 s : State) (es : List Event)
    (h0 : s0.isInitial) (hrun : run s0 es = some s) :
    (∀ blk ∈ blocks s.trace,
      (submitsOf blk = [] → errsOf blk = []) ∧
      (∀ b, (b, none) ∈ submitsOf blk → errsOf blk = []) ∧
      (∀ b e, (b, some e) ∈ submitsOf blk →
        errsOf blk = [e] ∨ (errsOf blk = [] ∧ s.pc = Pc.sendErr b e))) ∧
    (∀ b e, s.pc = Pc.sendErr b e → 0 < s.errRoom →
      ∃ s', batchUploader s Event.sendErr = some s' ∧ s'.pc = Pc.select ∧
        ∃ pre last, blocks s'.trace = pre ++ [last] ∧
          last.head? = some (Action.recv b) ∧ submitsOf last = [(b, some e)] ∧
          errsOf last = [e]) ∧
    (∀ next q r, s.pc = Pc.select → s.resultBatches = next :: q →
      next.length ≤ s.idsRoom → (r.isSome = true → 0 < s.errRoom) →
      ∃ s', run s (schedule next r) = some s' ∧ s'.pc = Pc.select ∧
        ∃ last, blocks s'.trace = blocks s.trace ++ [last] ∧
          last.head? = some (Action.recv next) ∧ submitsOf last = [(next, r)] ∧
          errsOf last = r.toList) := by
  have hinv := Inv_run es s0 s (Inv_initial s0 h0) hrun
  refine ⟨?_, ?_, ?_⟩
  · intro blk hblk
    rcases block_cases s hinv blk hblk with ⟨b0, r0, rfl⟩ | ⟨hp, _⟩
    · simp only [submitsOf_fullBlock, errsOf_fullBlock]
      refine ⟨by simp, ?_, ?_⟩
      · intro b hb
        simp at hb
        rw [← hb.2]
        rfl
      · intro b e hb
        simp at hb
        rw [← hb.2]
        exact Or.inl rfl
    · rw [hp, errsOf_partialBlock, submitsOf_partialBlock]
      refine ⟨fun _ => rfl, fun _ _ => rfl, ?_⟩
      intro b e hb
      cases hpc : s.pc <;> simp [hpc] at hb
      obtain ⟨rfl, rfl⟩ := hb
      exact Or.inr ⟨rfl, rfl⟩
  · intro b e hpc hroom
    obtain ⟨s', h1, h2, _, pre, h4⟩ := sendErr_completes s hinv b e hpc hroom
    exact ⟨s', h1, h2, pre, fullBlock (b, some e), h4, rfl, submitsOf_fullBlock b (some e),
      errsOf_fullBlock b (some e)⟩
  · intro next q r hpc hq hids herr
    obtain ⟨s', h1, h2, h3, _⟩ := handle_completes s next q r hpc hq hids herr
    refine ⟨s', h1, h2, fullBlock (next, r), ?_, rfl, submitsOf_fullBlock next r,
      errsOf_fullBlock next r⟩
    rw [h3]
    exact blocks_append_fullBlock s hinv hpc (next, r)

/-- Witness of `C3_errors_sent`: on the failing run of `ex0` with the error
sent, the batch has exactly that error; at the error send of that run the
step exists and sends it; and from the start `ex0` handles its batch to the
end with one error sent, the store failing. -/
theorem C3_errors_sent_witness :
    ((submitsOf exReported.trace = [] → errsOf exReported.trace = []) ∧
      (∀ b, (b, none) ∈ submitsOf exReported.trace → errsOf exReported.trace = []) ∧
      (∀ b e, (b, some e) ∈ submitsOf exReported.trace →
        errsOf exReported.trace = [e] ∨
          (errsOf exReported.trace = [] ∧ exReported.pc = Pc.sendErr b e))) ∧
    (∃ s', batchUploader exFailed Event.sendErr = some s' ∧ s'.pc = Pc.select ∧
        ∃ pre last, blocks s'.trace = pre ++ [last] ∧
          last.head? = some (Action.recv [exA, exB]) ∧
          submitsOf last = [([exA, exB], some exErr)] ∧ errsOf last = [exErr]) ∧
    (∃ s', run ex0 (schedule [exA, exB] (some exErr)) = some s' ∧ s'.pc = Pc.select ∧
        ∃ last, blocks s'.trace = blocks ex0.trace ++ [last] ∧
          last.head? = some (Action.recv [exA, exB]) ∧
          submitsOf last = [([exA, exB], some exErr)] ∧ errsOf last = [exErr]) :=
  ⟨(C3_errors_sent ex0 exReported (exFailing ++ [Event.sendErr]) (by decide)
      (by decide)).1 exReported.trace (by decide),
    (C3_errors_sent ex0 exFailed exFailing (by decide) (by decide)).2.1
      [exA, exB] exErr rfl (by decide),
    (C3_errors_sent ex0 ex0 [] (by decide) rfl).2.2
      [exA, exB] [] (some exErr) rfl rfl (by decide) (fun _ => by decide)⟩

/-- C4, the code at the failing input: a batch is handed off on
`c.resultBatches`, the context is cancelled, the `select` takes
`case <-c.ctxt.Done()`; the function has then returned (the `timeout` it just
set is never waited on), the store was never called, the batch is still in
the channel and no further step of the goroutine exists. In no run is the
case `<-timeout` ever taken. -/
theorem C4_returns_with_batch_pending :
    exIdle.isInitial ∧ run exIdle exCancelled = some exReturned ∧
      exReturned.pc = Pc.returned ∧ exReturned.resultBatches = [[exA]] ∧
      submitsOf exReturned.trace = [] ∧
      (∀ ev, ev.isUploader = true → batchUploader exReturned ev = none) ∧
      (∀ (s0 s : State) (es : List Event), s0.isInitial → run s0 es = some s →
        batchUploader s Event.selectTimeout = none) := by
  refine ⟨by decide, by decide, rfl, rfl, rfl, ?_, ?_⟩
  · intro ev hev
    cases ev <;> simp [Event.isUploader] at hev <;> rfl
  · intro s0 s es h0 hrun
    exact timeout_case_dead s0 s es h0 hrun

/-- C5: for every batch received, every call of `store.SubmitCrawls` made for
it is passed the received batch itself: the same records in the same order. -/
theorem C5_submit_argument (s0 s : State) (es : List Event)
    (h0 : s0.isInitial) (hrun : run s0 es = some s)
    (blk : List Action) (hblk : blk ∈ blocks s.trace)
    (b : Batch) (hb : blk.head? = some (Action.recv b)) :
    ∀ b' r, (b', r) ∈ submitsOf blk → b' = b ∧ b'.length = b.length := by
  have hinv := Inv_run es s0 s (Inv_initial s0 h0) hrun
  intro b' r hs
  suffices h : b' = b from ⟨h, by rw [h]⟩
  rcases block_cases s hinv blk hblk with ⟨b0, r0, rfl⟩ | ⟨hp, _⟩
  · simp [fullBlock] at hb
    subst hb
    rw [submitsOf_fullBlock] at hs
    simp at hs
    exact hs.1
  · rw [hp] at hb
    rw [hp, submitsOf_partialBlock] at hs
    cases hpc : s.pc <;> simp [hpc] at hs
    obtain ⟨rfl, rfl⟩ := hs
    simpa [hpc, partialBlock] using hb

/-- Witness of `C5_submit_argument` on the successful run of `ex0`. -/
theorem C5_submit_argument_witness :
    submitsOf exStored.trace = [([exA, exB], none)] ∧
      [exA, exB] = [exA, exB] ∧ [exA, exB].length = [exA, exB].length :=
  ⟨by decide, C5_submit_argument ex0 exStored exStoring (by decide) (by decide)
    exStored.trace (by decide) [exA, exB] (by decide) [exA, exB] none (by decide)⟩

/-- C6: for every batch received, `store.SubmitCrawls` has been called
exactly once for it, with whatever result, or not yet (the goroutine is then
still sending its identifiers or at the call); no step of the goroutine puts a
batch back into `c.resultBatches`; and from the `select`, with room on the
channels, the next batch is handled to the end with exactly one call. -/
theorem C6_submit_once (s0 s : State) (es : List Event)
    (h0 : s0.isInitial) (hrun : run s0 es = some s)
    (blk : List Action) (hblk : blk ∈ blocks s.trace)
    (b : Batch) (hb : blk.head? = some (Action.recv b)) :
    ((∃ r, submitsOf blk = [(b, r)]) ∨
      (submitsOf blk = [] ∧ (s.pc = Pc.submit b ∨ ∃ i, s.pc = Pc.sendIDs b i))) ∧
    (∀ ev s', ev.isUploader = true → batchUploader s ev = some s' →
      ∃ l, s.resultBatches = l ++ s'.resultBatches) ∧
    (∀ next q r, s.pc = Pc.select → s.resultBatches = next :: q →
      next.length ≤ s.idsRoom → (r.isSome = true → 0 < s.errRoom) →
      ∃ s', run s (schedule next r) = some s' ∧ s'.pc = Pc.select ∧
        ∃ done, blocks s'.trace = blocks s.trace ++ [done] ∧
          done.head? = some (Action.recv next) ∧ submitsOf done = [(next, r)]) := by
  have hinv := Inv_run es s0 s (Inv_initial s0 h0) hrun
  refine ⟨?_, ?_, ?_⟩
  · rcases block_cases s hinv blk hblk with ⟨b0, r0, rfl⟩ | ⟨hp, _⟩
    · simp [fullBlock] at hb
      subst hb
      exact Or.inl ⟨r0, submitsOf_fullBlock b0 r0⟩
    · rw [hp] at hb
      rw [hp, submitsOf_partialBlock]
      cases hpc : s.pc <;> simp [hpc, partialBlock] at hb ⊢
      · exact hb
      · exact hb
      · exact hb
  · intro ev s' hev hstep
    cases ev <;> simp [Event.isUploader] at hev
    · cases hp : s.pc <;> simp [batchUploader, hp] at hstep
      exact ⟨[], by rw [← hstep.2]; rfl⟩
    · cases hp : s.pc <;> cases hq : s.resultBatches <;> simp [batchUploader, hp, hq] at hstep
      rename_i x xs
      exact ⟨[x], by rw [← hstep]; rfl⟩
    · cases hp : s.pc <;> simp [batchUploader, hp] at hstep
      exact ⟨[], by rw [← hstep.2]; rfl⟩
    · cases hp : s.pc <;> simp [batchUploader, hp] at hstep
      rename_i x i
      cases hv : x[i]? <;> cases hr : s.idsRoom <;> simp [hv, hr] at hstep
      exact ⟨[], by rw [← hstep]; rfl⟩
    · rename_i r
      cases hp : s.pc <;> simp [batchUploader, hp] at hstep
      cases r <;> simp at hstep <;> exact ⟨[], by rw [← hstep]; rfl⟩
    · cases hp : s.pc <;> simp [batchUploader, hp] at hstep
      cases hr : s.errRoom <;> simp [hr] at hstep
      exact ⟨[], by rw [← hstep]; rfl⟩
  · intro next q r hpc hq hids herr
    obtain ⟨s', h1, h2, h3, _⟩ := handle_completes s next q r hpc hq hids herr
    refine ⟨s', h1, h2, fullBlock (next, r), ?_, rfl, submitsOf_fullBlock next r⟩
    rw [h3]
    exact blocks_append_fullBlock s hinv hpc (next, r)

/-- Witness of `C6_submit_once`: of two batches handed off, the first is
rejected by the store and reported; it was submitted once, and the second is
then handled to the end with one call. -/
theorem C6_submit_once_witness :
    ((∃ r, submitsOf exNext.trace = [([exA, exB], r)]) ∨
      (submitsOf exNext.trace = [] ∧
        (exNext.pc = Pc.submit [exA, exB] ∨ ∃ i, exNext.pc = Pc.sendIDs [exA, exB] i))) ∧
    (∀ ev s', ev.isUploader = true → batchUploader exNext ev = some s' →
      ∃ l, exNext.resultBatches = l ++ s'.resultBatches) ∧
    (∃ s', run exNext (schedule [exA] none) = some s' ∧ s'.pc = Pc.select ∧
        ∃ done, blocks s'.trace = blocks exNext.trace ++ [done] ∧
          done.head? = some (Action.recv [exA]) ∧ submitsOf done = [([exA], none)]) :=
  have h := C6_submit_once exTwo exNext (exFailing ++ [Event.sendErr]) (by decide) (by decide)
    exNext.trace (by decide) [exA, exB] (by decide)
  ⟨h.1, h.2.1, h.2.2 [exA] [] none rfl rfl (by decide) (by simp)⟩

/-- C7, as stated, fails: for the batch `[a, b]` and for the batch `[a]`, both
rejected by the store with the same error, the value sent on `c.errors` is in
both cases that very error as the store returned it; it carries no batch
size. -/
theorem C7_counterexample :
    (run ex0 (exFailing ++ [Event.sendErr])).map (fun s => errsOf s.trace) = some [exErr] ∧
    (run exOne [Event.selectBatch, Event.sendID, Event.storeReturns (some exErr),
        Event.sendErr]).map (fun s => errsOf s.trace) = some [exErr] := by
  decide

/-- C7, amended: for every batch whose store call fails, every value sent on
`c.errors` for it is the error exactly as the store returned it; the batch
size and the error text are written to the log line
`Uploading crawl of <size> videos failed: <text>` of that batch. -/
theorem C7_bare_error_sent (s0 s : State) (es : List Event)
    (h0 : s0.isInitial) (hrun : run s0 es = some s)
    (blk : List Action) (hblk : blk ∈ blocks s.trace)
    (b : Batch) (e : GoError) (hs : (b, some e) ∈ submitsOf blk) :
    (∀ x ∈ errsOf blk, x = e) ∧
      Action.logErr ("Uploading crawl of " ++ toString b.length ++ " videos failed: " ++ e.msg)
        ∈ blk := by
  have hinv := Inv_run es s0 s (Inv_initial s0 h0) hrun
  rcases block_cases s hinv blk hblk with ⟨b0, r0, rfl⟩ | ⟨hp, _⟩
  · rw [submitsOf_fullBlock] at hs
    simp at hs
    obtain ⟨rfl, rfl⟩ := hs
    rw [errsOf_fullBlock]
    refine ⟨by simp, ?_⟩
    simp [fullBlock, errActs, errorLine]
  · rw [hp, submitsOf_partialBlock] at hs
    rw [hp, errsOf_partialBlock]
    refine ⟨by simp, ?_⟩
    cases hpc : s.pc <;> simp [hpc] at hs
    obtain ⟨rfl, rfl⟩ := hs
    simp [partialBlock, errorLine]

/-- Witness of `C7_bare_error_sent` on the failing run of `ex0`, the error sent. -/
theorem C7_bare_error_sent_witness :
    (∀ x ∈ errsOf exReported.trace, x = exErr) ∧
      Action.logErr ("Uploading crawl of " ++ toString [exA, exB].length ++
        " videos failed: " ++ exErr.msg) ∈ exReported.trace :=
  C7_bare_error_sent ex0 exReported (exFailing ++ [Event.sendErr]) (by decide) (by decide)
    exReported.trace (by decide) [exA, exB] exErr (by decide)

/-- C8, as stated, fails: with no room on `c.errors`, the run in which the
store rejects the batch reaches the send `c.errors <- err`, and there no step
of the goroutine is enabled, neither at once nor after a cancellation or the
handoff of a further batch. -/
theorem C8_counterexample :
    exNoErrRoom.isInitial ∧ run exNoErrRoom exFailing = some exBlocked ∧
      (∀ ev, ev.isUploader = true → batchUploader exBlocked ev = none) ∧
      (∀ ev, ev.isUploader = true →
        run exBlocked [Event.cancel, Event.handoff [exA], ev] = none) := by
  refine ⟨by decide, by decide, ?_, ?_⟩
  · intro ev hev
    cases ev <;> simp [Event.isUploader] at hev <;> rfl
  · intro ev hev
    cases ev <;> simp [Event.isUploader] at hev <;> rfl

/-- C8, amended: reporting a store failure is a blocking send. At
`c.errors <- err` the only step of the goroutine is the completion of that
send; it is enabled exactly when `c.errors` has room, and it takes the
goroutine back to the `select` with the error sent. -/
theorem C8_error_send_blocks (s : State) (b : Batch) (e : GoError)
    (hpc : s.pc = Pc.sendErr b e) :
    (∀ ev, ev.isUploader = true → ev ≠ Event.sendErr → batchUploader s ev = none) ∧
    ((batchUploader s Event.sendErr).isSome = true ↔ 0 < s.errRoom) ∧
    (0 < s.errRoom → batchUploader s Event.sendErr =
      some { s with errRoom := s.errRoom - 1, pc := Pc.select,
                    trace := s.trace ++ [Action.sendErr e] }) := by
  refine ⟨?_, ?_, ?_⟩
  · intro ev hev hne
    cases ev <;> simp [Event.isUploader] at hev hne <;> simp [batchUploader, hpc]
  · cases hr : s.errRoom <;> simp [batchUploader, hpc, hr]
  · intro h
    cases hr : s.errRoom with
    | zero => omega
    | succ room => simp [batchUploader, hpc, hr]

/-- Witness of `C8_error_send_blocks` at the error send of the failing run. -/
theorem C8_error_send_blocks_witness :
    (∀ ev, ev.isUploader = true → ev ≠ Event.sendErr → batchUploader exFailed ev = none) ∧
    ((batchUploader exFailed Event.sendErr).isSome = true ↔ 0 < exFailed.errRoom) ∧
    (0 < exFailed.errRoom → batchUploader exFailed Event.sendErr = some exReported) :=
  C8_error_send_blocks exFailed [exA, exB] exErr rfl

end worker

namespace browseajax

open fastjson

/-! ## The browse-AJAX and JSON-API page parsers -/

theorem findContainer_first (pre post : List Value) (container : Value)
    (hpre : ∀ x ∈ pre, x.Exists ["response"] = false)
    (hc : container.Exists ["response"] = true) :
    findContainer (pre ++ container :: post) = some container := by
  induction pre with
  | nil => simp [findContainer, hc]
  | cons x xs ih =>
    have hx : x.Exists ["response"] = false := hpre x (by simp)
    simp only [List.cons_append, findContainer, hx]
    exact ih (fun y hy => hpre y (by simp [hy]))

theorem enumerate_strings (items : List Value) : ∀ (urls acc : List String),
    items.map (fun item => item.Get ["gridVideoRenderer", "navigationEndpoint",
      "commandMetadata", "webCommandMetadata", "url"])
      = urls.map (fun u => some (Value.string u)) →
    enumerate items acc = Except.ok (acc ++
      (urls.filter (fun u => strings.HasPrefix u "/watch?v")).map
        (fun u => "https://www.youtube.com" ++ u)) := by
  induction items with
  | nil =>
    intro urls acc h
    cases urls with
    | nil => simp [enumerate]
    | cons u us => simp at h
  | cons item items ih =>
    intro urls acc h
    cases urls with
    | nil => simp at h
    | cons u us =>
      simp only [List.map_cons, List.cons.injEq] at h
      obtain ⟨h1, h2⟩ := h
      by_cases hp : strings.HasPrefix u "/watch?v" = true
      · simp only [enumerate, h1, Value.StringBytes, hp, if_true]
        rw [ih us _ h2]
        simp [List.filter_cons, hp]
      · simp only [enumerate, h1, Value.StringBytes, hp]
        rw [if_neg (by simp), ih us _ h2]
        simp [List.filter_cons, hp]

theorem apijson_findContainer_eq (root : List Value) :
    apijson.findContainer root = findContainer root := by
  induction root with
  | nil => rfl
  | cons x xs ih => simp [apijson.findContainer, findContainer, ih]

theorem apijson_enumerate_eq (items : List Value) : ∀ acc : List String,
    apijson.enumerate items acc = enumerate items acc := by
  induction items with
  | nil => intro acc; rfl
  | cons x xs ih =>
    intro acc
    simp only [apijson.enumerate, enumerate, ih]
    rfl

/-- C9: for a JSON array whose first element with a `response` key has no
`response.responseContext.errors.error` and has an array at
`response.continuationContents.gridContinuation.items` whose items all hold a
string at `gridVideoRenderer.navigationEndpoint.commandMetadata.webCommandMetadata.url`,
`ParsePage` returns, without error, the urls that start with `/watch?v`, in
item order, each behind `https://www.youtube.com`; the list is no longer than
the items; and `ParseChannelVideoURLs` returns the same list for a 200
response whose body parses to that array. -/
theorem C9_video_urls (pre post : List Value) (container : Value)
    (items : List Value) (urls : List String)
    (hpre : ∀ x ∈ pre, x.Exists ["response"] = false)
    (hc : container.Exists ["response"] = true)
    (herr : container.Exists ["response", "responseContext", "errors", "error"] = false)
    (hitems : container.Get ["response", "continuationContents", "gridContinuation", "items"]
      = some (Value.array items))
    (hurls : items.map (fun item => item.Get ["gridVideoRenderer", "navigationEndpoint",
      "commandMetadata", "webCommandMetadata", "url"])
      = urls.map (fun u => some (Value.string u))) :
    ParsePage (Value.array (pre ++ container :: post))
      = Except.ok ((urls.filter (fun u => strings.HasPrefix u "/watch?v")).map
          (fun u => "https://www.youtube.com" ++ u)) ∧
    ((urls.filter (fun u => strings.HasPrefix u "/watch?v")).map
          (fun u => "https://www.youtube.com" ++ u)).length ≤ items.length ∧
    ∀ (ParseBytes : String → Except GoError Value) (res : apijson.Response) (buf : String),
      res.StatusCode = 200 → res.Body = Except.ok buf →
      ParseBytes buf = Except.ok (Value.array (pre ++ container :: post)) →
      apijson.ParseChannelVideoURLs ParseBytes res
        = Except.ok ((urls.filter (fun u => strings.HasPrefix u "/watch?v")).map
            (fun u => "https://www.youtube.com" ++ u)) := by
  have hfind := findContainer_first pre post container hpre hc
  have henum := enumerate_strings items urls [] hurls
  simp only [List.nil_append] at henum
  refine ⟨?_, ?_, ?_⟩
  · simp only [ParsePage, Value.Array, hfind, herr, hitems, henum]
    rfl
  · have hlen : items.length = urls.length := by
      have := congrArg List.length hurls
      simpa using this
    rw [List.length_map, hlen]
    exact List.length_filter_le _ _
  · intro ParseBytes res buf hstatus hbody hparse
    simp only [apijson.ParseChannelVideoURLs, hstatus, hbody, hparse, Value.Array,
      apijson_findContainer_eq, hfind, herr, hitems, apijson_enumerate_eq, henum]
    rfl

/-- Witness of `C9_video_urls` on a payload of three items, two of them videos. -/
theorem C9_video_urls_witness :
    ParsePage exRoot
      = Except.ok ["https://www.youtube.com/watch?v=abc",
          "https://www.youtube.com/watch?v=def&t=3"] ∧
    [ "https://www.youtube.com/watch?v=abc",
      "https://www.youtube.com/watch?v=def&t=3"].length ≤ exItems.length ∧
    apijson.ParseChannelVideoURLs exParseBytes exResponse
      = Except.ok ["https://www.youtube.com/watch?v=abc",
          "https://www.youtube.com/watch?v=def&t=3"] :=
  have h := C9_video_urls [Value.object [("page", Value.string "browse")]] [] exContainer
    exItems ["/watch?v=abc", "/playlist?list=PL1", "/watch?v=def&t=3"]
    (by decide) (by decide) (by decide) rfl rfl
  ⟨h.1, h.2.1, h.2.2 exParseBytes exResponse exBody rfl rfl (by simp [exParseBytes, exRoot])⟩

end browseajax

namespace apiclassic

open data

/-! ## The meta tags of the classic watch page -/

theorem metaCallback_err (ext : External) (tag : metaTag) (c : Captured) :
    (metaCallback ext tag c).1.err = c.err := by
  unfold metaCallback
  cases tag.typ <;> simp only <;> (repeat' split) <;> rfl

theorem enumMetas_err (ext : External) (doc : List metaTag) (c : Captured) :
    (enumMetas doc (metaCallback ext) c).err = c.err := by
  induction doc generalizing c with
  | nil => rfl
  | cons tag rest ih =>
    have h := metaCallback_err ext tag c
    unfold enumMetas
    split
    · rename_i st' heq
      rw [ih st', ← h, heq]
    · rename_i st' heq
      rw [← h, heq]

theorem metaCallback_continues (ext : External) (tag : metaTag) (c : Captured)
    (h : rejectedDuration ext tag = false) : (metaCallback ext tag c).2 = true := by
  unfold metaCallback
  unfold rejectedDuration at h
  cases ht : tag.typ <;> simp only [ht] at h ⊢
  · (repeat' split) <;> rfl
  · repeat' split
    all_goals first | rfl | skip
    all_goals simp_all

theorem metaCallback_stops (ext : External) (tag : metaTag) (c : Captured)
    (h : rejectedDuration ext tag = true) : metaCallback ext tag c = (c, false) := by
  unfold rejectedDuration at h
  simp only [Bool.and_eq_true, beq_iff_eq] at h
  obtain ⟨⟨ht, hn⟩, hd⟩ := h
  unfold metaCallback
  simp only [ht, hn]
  split at hd
  · simp at hd
  · rename_i e herr
    simp [herr]

theorem metaCallback_duration (ext : External) (tag : metaTag) (c : Captured)
    (h : ¬ (tag.typ = metaType.metaItemProp ∧ tag.name = "duration")) :
    (metaCallback ext tag c).1.v.Duration = c.v.Duration := by
  unfold metaCallback
  cases ht : tag.typ <;> simp only [ht] at h ⊢
  · (repeat' split) <;> rfl
  · repeat' split
    all_goals first | rfl | skip
    all_goals simp_all

theorem enumMetas_stops (ext : External) (pre post : List metaTag) (tag : metaTag)
    (c : Captured) (htag : rejectedDuration ext tag = true)
    (hpre : ∀ t ∈ pre, rejectedDuration ext t = false) :
    enumMetas (pre ++ tag :: post) (metaCallback ext) c = enumMetas pre (metaCallback ext) c := by
  induction pre generalizing c with
  | nil =>
    simp only [List.nil_append, enumMetas, metaCallback_stops ext tag c htag]
  | cons t ts ih =>
    have hcont := metaCallback_continues ext t c (hpre t (by simp))
    have hts : ∀ x ∈ ts, rejectedDuration ext x = false := fun x hx => hpre x (by simp [hx])
    simp only [List.cons_append, enumMetas]
    split
    · rename_i st' heq
      exact ih st' hts
    · rename_i st' heq
      simp [heq] at hcont

theorem enumMetas_duration (ext : External) (pre : List metaTag) (c : Captured)
    (hpre : ∀ t ∈ pre, ¬ (t.typ = metaType.metaItemProp ∧ t.name = "duration")) :
    (enumMetas pre (metaCallback ext) c).v.Duration = c.v.Duration := by
  induction pre generalizing c with
  | nil => rfl
  | cons t ts ih =>
    have hd := metaCallback_duration ext t c (hpre t (by simp))
    have hts : ∀ x ∈ ts, ¬ (x.typ = metaType.metaItemProp ∧ x.name = "duration") :=
      fun x hx => hpre x (by simp [hx])
    unfold enumMetas
    split
    · rename_i st' heq
      rw [ih st' hts, ← hd, heq]
    · rename_i st' heq
      rw [← hd, heq]

/-- C10: `parseMetas` returns a nil error for every document. A tag with
`itemprop="duration"` whose content `api.ParseDuration` rejects only ends the
enumeration: the video is left as the tags before it made it, so the later
tags are not applied and `Duration` is not assigned by it. `parse` therefore
succeeds whenever its other steps do. -/
theorem C10_parseMetas_nil_error (ext : External) (doc : List metaTag) (v : Video) :
    (parseMetas ext doc v).2 = none ∧
    (∀ pre tag post, doc = pre ++ tag :: post → rejectedDuration ext tag = true →
      (∀ t ∈ pre, rejectedDuration ext t = false) →
      (parseMetas ext doc v).1 = (parseMetas ext pre v).1 ∧
      ((∀ t ∈ pre, ¬ (t.typ = metaType.metaItemProp ∧ t.name = "duration")) →
        (parseMetas ext doc v).1.Duration = v.Duration)) ∧
    (∀ (steps : Steps) (v0 v1 v2 v3 : Video),
      steps.checkAvailability = Except.ok true →
      steps.parseLikeDislike v0 = Except.ok v1 → steps.parseUploader v1 = Except.ok v2 →
      steps.parseDescription v2 = Except.ok v3 → steps.parsePlayerConfig v3 = Except.ok v →
      parse ext steps doc v0
        = Except.ok (steps.parseRecommends, steps.parseLicense (parseMetas ext doc v).1)) := by
  have herr : (parseMetas ext doc v).2 = none := by
    simp only [parseMetas]
    exact enumMetas_err ext doc _
  refine ⟨herr, ?_, ?_⟩
  · intro pre tag post hdoc htag hpre
    subst hdoc
    have hstop := enumMetas_stops ext pre post tag { v := v, err := none } htag hpre
    refine ⟨by simp only [parseMetas, hstop], ?_⟩
    intro hnodur
    simp only [parseMetas, hstop]
    exact enumMetas_duration ext pre _ hnodur
  · intro steps v0 v1 v2 v3 h0 h1 h2 h3 h4
    simp only [parse, h0, h1, h2, h3, h4]
    split
    · rename_i v5 err heq
      rw [heq] at herr
      simp at herr
    · rename_i v5 heq
      rw [heq]

/-- Witness of `C10_parseMetas_nil_error` on a document whose second tag is a
duration that does not parse. -/
theorem C10_parseMetas_nil_error_witness :
    parseMetas exExternal exDoc {} = ({ Title := "Me at the zoo" }, none) ∧
    rejectedDuration exExternal ⟨metaType.metaItemProp, "duration", "PT0M19S"⟩ = true ∧
    (parseMetas exExternal exDoc {}).1.Duration = 0 ∧
    parse exExternal exSteps exDoc {}
      = Except.ok (["jNQXAC9IVRw"], { Title := "Me at the zoo" }) := by
  have h := C10_parseMetas_nil_error exExternal exDoc {}
  have h2 := (h.2.1 [⟨metaType.metaProperty, "og:title", "Me at the zoo"⟩]
    ⟨metaType.metaItemProp, "duration", "PT0M19S"⟩
    [⟨metaType.metaItemProp, "genre", "Film"⟩] rfl (by decide) (by decide)).2 (by decide)
  have h3 := h.2.2 exSteps {} {} {} {} rfl rfl rfl rfl rfl
  exact ⟨by decide, by decide, h2, h3⟩

end apiclassic

